import Mathlib

/-!
Verification development for the otp-auth repository (Go sources
src/main.go and src/filepicker.go).  The Go code is shallowly embedded:
pure helpers become Lean functions, the mutable UI/session state of
main.go becomes an explicit record threaded through the event handlers,
wall-clock time becomes an explicit natural-number parameter
(seconds since the Unix epoch), and file contents are passed as
explicit string arguments.  Machine integers of the source are modelled
as Nat/Int with explicit truncation where the Go code truncates.
-/

namespace OtpAuth

/-- Provider represents an OTP provider/account (src/main.go). -/
structure Provider where
  name : String
  secret : String
deriving DecidableEq, Repr

/-! ## Go encoding/base32: StdEncoding.DecodeString

Embeds the decoder of the Go encoding/base32 package (standard alphabet
A..Z 2..7, padding character =), which both src/main.go call sites use
via base32.StdEncoding.DecodeString, discarding the decoded bytes.
Strings are handled at the rune level; a non-ASCII rune is not in the
decode map, so it is rejected exactly as its UTF-8 bytes would be. -/

/-- Value of one base32 character in the standard alphabet, none if the
character is not in the decode map. -/
def b32Val (c : Char) : Option Nat :=
  if 'A' ≤ c ∧ c ≤ 'Z' then some (c.toNat - 65)
  else if '2' ≤ c ∧ c ≤ '7' then some (c.toNat - 50 + 26)
  else none

/-- DecodeString first strips carriage returns and newlines. -/
def stripNewlines (l : List Char) : List Char :=
  l.filter (fun c => !(c = '\r' || c = '\n'))

/-- Checks that the first min(m, length) characters are padding,
mirroring the padding scan in the Go decoder. -/
def padScanOk : List Char → Nat → Bool
  | _, 0 => true
  | [], _ + 1 => true
  | c :: rest, m + 1 => c = '=' && padScanOk rest m

/-- Reads one 8-character quantum, following the Go decode loop: j is the
position inside the quantum, acc the 5-bit values read so far (reversed).
Returns the values, dlen, the unconsumed input and the end flag; an
error corresponds to the Go CorruptInputError. -/
def readQuantum : List Char → Nat → List Nat → Except Unit (List Nat × Nat × List Char × Bool)
  | src, j, acc =>
    if j ≥ 8 then .ok (acc.reverse, 8, src, false)
    else
      match src with
      | [] => .error ()
      | c :: rest =>
        if c = '=' ∧ j ≥ 2 ∧ rest.length < 8 then
          if rest.length + j < 7 then .error ()
          else if !padScanOk rest (7 - j) then .error ()
          else if j = 3 ∨ j = 6 then .error ()
          else .ok (acc.reverse, j, rest, true)
        else
          match b32Val c with
          | none => .error ()
          | some v => readQuantum rest (j + 1) (v :: acc)

/-- Packs the 5-bit values of one quantum into bytes, with the byte
truncation Go performs on each shifted term. -/
def quantumBytes (vals : List Nat) (dlen : Nat) : List Nat :=
  let d := fun i => vals.getD i 0
  let b0 := (d 0 <<< 3) % 256 ||| d 1 >>> 2
  let b1 := (d 1 <<< 6) % 256 ||| (d 2 <<< 1) % 256 ||| d 3 >>> 4
  let b2 := (d 3 <<< 4) % 256 ||| d 4 >>> 1
  let b3 := (d 4 <<< 7) % 256 ||| (d 5 <<< 2) % 256 ||| d 6 >>> 3
  let b4 := (d 6 <<< 5) % 256 ||| d 7
  if dlen ≥ 8 then [b0, b1, b2, b3, b4]
  else if dlen ≥ 7 then [b0, b1, b2, b3]
  else if dlen ≥ 5 then [b0, b1, b2]
  else if dlen ≥ 4 then [b0, b1]
  else if dlen ≥ 2 then [b0]
  else []

/-- Decode loop over quanta.  Each iteration consumes at least two
characters, so fuel = length + 1 never runs out; the fuel-zero branch is
unreachable and present only to make the recursion structural. -/
def decodeLoop : Nat → List Char → Except Unit (List Nat)
  | 0, _ => .error ()
  | fuel + 1, src =>
    if src.isEmpty then .ok []
    else
      match readQuantum src 0 [] with
      | .error e => .error e
      | .ok (vals, dlen, rest, stop) =>
        if stop then .ok (quantumBytes vals dlen)
        else
          match decodeLoop fuel rest with
          | .error e => .error e
          | .ok bs => .ok (quantumBytes vals dlen ++ bs)

/-- base32.StdEncoding.DecodeString. -/
def base32DecodeString (s : String) : Except Unit (List Nat) :=
  let src := stripNewlines s.toList
  decodeLoop (src.length + 1) src

/-- Boolean success test for an Except value. -/
def exceptIsOk {ε α : Type} : Except ε α → Bool
  | .ok _ => true
  | .error _ => false

/-! ## strings.TrimSpace and path/filepath.Ext -/

/-- Go unicode.IsSpace: the White_Space code points. -/
def isSpace (c : Char) : Bool :=
  c = ' ' || c = '\t' || c = '\n' || c = '\r' || c = '\x0b' || c = '\x0c' ||
  c.toNat = 0x85 || c.toNat = 0xA0 || c.toNat = 0x1680 ||
  (0x2000 ≤ c.toNat && c.toNat ≤ 0x200A) ||
  c.toNat = 0x2028 || c.toNat = 0x2029 || c.toNat = 0x202F ||
  c.toNat = 0x205F || c.toNat = 0x3000

/-- strings.TrimSpace on rune lists. -/
def trimSpace (l : List Char) : List Char :=
  ((l.dropWhile isSpace).reverse.dropWhile isSpace).reverse

/-- filepath.Ext: the suffix beginning at the final dot in the final
slash-separated element of the path, empty if there is no dot. -/
def filepathExt (p : String) : String :=
  let baseRev := p.toList.reverse.takeWhile (fun c => !(c = '/'))
  let extRev := baseRev.takeWhile (fun c => !(c = '.'))
  if extRev.length = baseRev.length then ""
  else String.mk ('.' :: extRev.reverse)

/-- strings.ToLower restricted to ASCII, which is all the call site
compares against (".txt", ".key"). -/
def asciiLower (s : String) : String :=
  String.mk (s.toList.map Char.toLower)

/-- readSecretFromFile (src/main.go).  The file system read is made
explicit: the function receives the file content that os.ReadFile
returned for the path, and the claims quantify over it. -/
def readSecretFromFile (filePath : String) (content : String) : Except String String :=
  let ext := asciiLower (filepathExt filePath)
  if ext = ".txt" ∨ ext = ".key" then
    let secret := String.mk (trimSpace content.toList)
    match base32DecodeString secret with
    | .error _ => .error "invalid base32 string in file"
    | .ok _ => .ok secret
  else
    .error "QR code parsing is not supported in this version"

/-! ## The TOTP primitive -/

/-- One decimal digit as a character. -/
def digitChar (d : Nat) : Char := Char.ofNat (48 + d % 10)

/-- Zero-padded six-digit decimal rendering of n mod 10^6, as fmt
"%06d" produces for values below 10^6. -/
def zeroPad6 (n : Nat) : String :=
  String.mk [digitChar (n / 100000), digitChar (n / 10000), digitChar (n / 1000),
             digitChar (n / 100), digitChar (n / 10), digitChar n]

/-- Modelled from the spec: the digest underlying the external TOTP
primitive (totp.GenerateCode of github.com/pquerna/otp, whose
implementation is not part of this repository).  The spec treats the
HMAC-based algorithm as a trusted external primitive whose output is a
function of the secret and of the 30-second time step only; the
concrete mixing below is an arbitrary computable stand-in with exactly
that dependency structure. -/
def totpDigest (secret : String) (counter : Nat) : Nat :=
  secret.toList.foldl (fun a c => (a * 131 + c.toNat) % 1000000) (counter % 1000000)

/-- Modelled from the spec: generate(secret, now).  Fails with a
CodeGenerationError when the secret is not well-formed base32 (the
spec: a malformed secret that slips through validation); otherwise
returns the 6-digit code for the 30-second epoch-aligned window
containing now.  now is in seconds since the Unix epoch. -/
def generateTOTP (secret : String) (now : Nat) : Except String String :=
  match base32DecodeString secret with
  | .error _ => .error "Decoding of secret as base32 failed."
  | .ok _ => .ok (zeroPad6 (totpDigest secret (now / 30)))

/-! ## Session state of main.go

The mutable locals of main (providers, selectedProviderIndex,
currentOTP, currentProvider) and the text of the otpView widget become
one record.  tview widget plumbing (layout, focus, form fields) is
display glue outside the claims; the otpView text is kept because
several claims speak about the display state. -/

structure AppState where
  providers : List Provider
  selectedProviderIndex : Int
  currentOTP : String
  currentProvider : String
  otpView : String
deriving DecidableEq, Repr

/-- Bracket escaping applied before writing user text into the tview
markup: ReplaceAll "[" "[[" then ReplaceAll "]" "]]". -/
def escapeBrackets (s : String) : String :=
  String.mk (s.toList.foldr
    (fun c acc =>
      if c = '[' then '[' :: '[' :: acc
      else if c = ']' then ']' :: ']' :: acc
      else c :: acc) [])

/-- Seconds within the current minute of a wall-clock instant, as Go
time.Now().Second() returns it (time-zone offsets are whole minutes). -/
def secondOfMinute (now : Nat) : Nat := now % 60

/-- The remaining-seconds value computed by updateCountdown:
30 - time.Now().Second()%30. -/
def remainingSeconds (now : Nat) : Nat := 30 - secondOfMinute now % 30

/-- The countdown text that updateCountdown writes to otpView. -/
def countdownText (provider otp : String) (now : Nat) : String :=
  "[green]Provider: [yellow]" ++ escapeBrackets provider ++
  "[white]\n[green]Your OTP: [yellow]" ++ escapeBrackets otp ++
  "[white]\n\nValid for [red]" ++ toString (remainingSeconds now) ++ "[white] seconds"

/-- The welcome screen that generateAndDisplayOTP shows when no
provider is available or selected. -/
def noSelectionText : String :=
  "[yellow]Welcome to OTP Auth![white]\n\n" ++
  "[red]No providers available or no provider selected[white]\n\n" ++
  "[green]To get started:[white]\n" ++
  "1. Enter a provider name in the form on the left\n" ++
  "2. Enter a secret or load one from a file\n" ++
  "3. Click \x27Add Provider\x27 to create your first provider\n\n" ++
  "Your providers will be saved automatically and loaded when you restart the app."

/-- The error display written when code generation fails. -/
def generationErrorText (msg : String) : String :=
  "[red]Error: " ++ escapeBrackets msg ++ "[white]"

/-- The success screen shown after a provider was added. -/
def addSuccessText (providerName : String) : String :=
  "[green]Success![white]\n\n" ++
  "Added new provider: [yellow]" ++ escapeBrackets providerName ++ "[white]\n\n" ++
  "Your provider has been saved to [blue]" ++ escapeBrackets "providers.json" ++ "[white]\n" ++
  "It will be automatically loaded when you restart the app."

/-- updateCountdown (src/main.go): refreshes only the countdown text,
and only when both currentOTP and currentProvider are set. -/
def updateCountdown (s : AppState) (now : Nat) : AppState :=
  if s.currentOTP = "" ∨ s.currentProvider = "" then s
  else { s with otpView := countdownText s.currentProvider s.currentOTP now }

/-- generateAndDisplayOTP (src/main.go).  Returns none when the Go
code would panic: providers[selectedProviderIndex] with a non-empty
list and an index outside [0, len) is an uncaught index-out-of-range
panic, since only len == 0 and index == -1 are guarded. -/
def generateAndDisplayOTP (s : AppState) (now : Nat) : Option AppState :=
  if s.providers.length = 0 ∨ s.selectedProviderIndex = -1 then
    some { s with otpView := noSelectionText, currentOTP := "", currentProvider := "" }
  else if h : 0 ≤ s.selectedProviderIndex ∧ s.selectedProviderIndex.toNat < s.providers.length then
    let provider := s.providers.get ⟨s.selectedProviderIndex.toNat, h.2⟩
    match generateTOTP provider.secret now with
    | .error e =>
      some { s with otpView := generationErrorText e, currentOTP := "", currentProvider := "" }
    | .ok otp =>
      some (updateCountdown { s with currentOTP := otp, currentProvider := provider.name } now)
  else
    none

/-- The provider list selection handler: stores the index, then
generates and displays. -/
def selectProvider (s : AppState) (index : Int) (now : Nat) : Option AppState :=
  generateAndDisplayOTP { s with selectedProviderIndex := index } now

/-- The body of the coarse 15-second ticker: refresh only when a
provider is selected. -/
def coarseTick (s : AppState) (now : Nat) : Option AppState :=
  if s.providers.length > 0 ∧ s.selectedProviderIndex ≥ 0 then
    generateAndDisplayOTP s now
  else
    some s

/-- The fine 1-second ticker body. -/
def fineTick (s : AppState) (now : Nat) : AppState :=
  updateCountdown s now

/-- The Add Provider button handler (src/main.go).  providerName and
secret are the form field values; saveErr is the outcome of the
saveProviders file write (none = success), an effect of the
environment.  The Bool of the result records whether a write of
providers.json was attempted; none again means a panic inside
generateAndDisplayOTP. -/
def addProvider (s : AppState) (providerName secret : String) (saveErr : Option String)
    (now : Nat) : Option (AppState × Bool) :=
  if providerName = "" then
    some ({ s with otpView := "[red]Error: Provider name cannot be empty[white]" }, false)
  else if secret = "" then
    some ({ s with otpView := "[red]Error: Secret cannot be empty[white]" }, false)
  else
    match base32DecodeString secret with
    | .error _ =>
      some ({ s with otpView := "[red]Error: Secret must be a valid base32 string[white]" }, false)
    | .ok _ =>
      let newProvider : Provider := ⟨providerName, secret⟩
      let s1 := { s with providers := s.providers ++ [newProvider] }
      match saveErr with
      | some msg =>
        some ({ s1 with otpView := "[red]Error saving providers: " ++ escapeBrackets msg ++ "[white]" }, true)
      | none =>
        let s2 := { s1 with
          selectedProviderIndex := Int.ofNat (s1.providers.length - 1),
          currentOTP := "", currentProvider := "",
          otpView := addSuccessText providerName }
        (generateAndDisplayOTP s2 now).map (fun s3 => (s3, true))

/-! ## Helper lemmas -/

lemma updateCountdown_fields (s : AppState) (now : Nat) :
    (updateCountdown s now).currentOTP = s.currentOTP ∧
    (updateCountdown s now).currentProvider = s.currentProvider ∧
    (updateCountdown s now).providers = s.providers ∧
    (updateCountdown s now).selectedProviderIndex = s.selectedProviderIndex := by
  unfold updateCountdown
  split <;> simp

lemma zeroPad6_ne_empty (n : Nat) : zeroPad6 n ≠ "" := by
  simp [zeroPad6, String.ext_iff]

lemma zeroPad6_length (n : Nat) : (zeroPad6 n).length = 6 := rfl

/-! ## C2: the countdown value -/

/-- C2: for every instant t, the remaining-seconds value computed by
updateCountdown (30 minus second-of-minute mod 30) equals
30 - (epochSeconds(t) mod 30), lies in [1, 30], and is 30 exactly when
epochSeconds(t) mod 30 = 0. -/
theorem remainingSecondsSpec (t : Nat) :
    remainingSeconds t = 30 - t % 30 ∧
    1 ≤ remainingSeconds t ∧ remainingSeconds t ≤ 30 ∧
    (remainingSeconds t = 30 ↔ t % 30 = 0) := by
  unfold remainingSeconds secondOfMinute
  omega

/-! ## C7: the fine tick only touches the countdown text -/

/-- C7: every execution of the fine one-second tick (updateCountdown)
leaves currentOTP, currentProvider, the provider list and the selection
unchanged — it never regenerates the code and only rewrites the
otpView text. -/
theorem updateCountdownFrame (s : AppState) (now : Nat) :
    fineTick s now = updateCountdown s now ∧
    (updateCountdown s now).currentOTP = s.currentOTP ∧
    (updateCountdown s now).currentProvider = s.currentProvider ∧
    (updateCountdown s now).providers = s.providers ∧
    (updateCountdown s now).selectedProviderIndex = s.selectedProviderIndex :=
  ⟨rfl, updateCountdown_fields s now⟩

/-! ## C1: out-of-range selection -/

/-- C1 (counterexample): with one provider and selection index 1 — out
of range, but not -1 — generateAndDisplayOTP reaches
providers[selectedProviderIndex] unguarded; the Go code panics with an
index-out-of-range runtime error (modelled as none) instead of
clearing the state. -/
theorem selectOutOfRangePanics :
    selectProvider
      { providers := [⟨"acct", "JBSWY3DPEHPK3PXP"⟩], selectedProviderIndex := -1,
        currentOTP := "", currentProvider := "", otpView := "" } 1 0 = none := by
  decide

/-- C1 (amended): selecting index -1, or any index while the provider
list is empty, clears currentOTP/currentProvider, shows the
no-selection display state and raises no error; an index ≥ list length
on a non-empty list is not guarded and panics. -/
theorem selectNoSelectionClears (s : AppState) (index : Int) (now : Nat)
    (h : index = -1 ∨ s.providers = []) :
    selectProvider s index now =
      some { s with selectedProviderIndex := index, currentOTP := "",
                    currentProvider := "", otpView := noSelectionText } := by
  unfold selectProvider generateAndDisplayOTP
  rcases h with h | h <;> simp [h]

theorem selectNoSelectionClears_witness :
    selectProvider
      { providers := [], selectedProviderIndex := -1, currentOTP := "",
        currentProvider := "", otpView := "" } 7 0 =
      some { providers := [], selectedProviderIndex := 7, currentOTP := "",
             currentProvider := "", otpView := noSelectionText } :=
  selectNoSelectionClears _ 7 0 (Or.inr rfl)

/-! ## C3: same-window determinism -/

lemma generateTOTP_sameWindow (secret : String) (t1 t2 : Nat) (h : t1 / 30 = t2 / 30) :
    generateTOTP secret t1 = generateTOTP secret t2 := by
  unfold generateTOTP
  cases base32DecodeString secret <;> simp [h]

/-- What a successful select does to the code fields, phrased with
List.getD to stay independent of the in-range proof. -/
lemma selectProvider_code (s : AppState) (i : Int) (now : Nat) (s' : AppState)
    (h : selectProvider s i now = some s') :
    s'.providers = s.providers ∧
    s'.currentOTP =
      (if s.providers.length = 0 ∨ i = -1 then ""
       else match generateTOTP (s.providers.getD i.toNat ⟨"", ""⟩).secret now with
            | .error _ => ""
            | .ok c => c) := by
  unfold selectProvider generateAndDisplayOTP at h
  by_cases hg : s.providers.length = 0 ∨ i = -1
  · simp only [hg, if_true] at h ⊢
    simp at h
    subst h
    simp
  · simp only [hg, if_false] at h ⊢
    simp at h
    obtain ⟨hrange, h⟩ := h
    have hget : s.providers[i.toNat] = s.providers.getD i.toNat ⟨"", ""⟩ :=
      (List.getD_eq_getElem _ _ hrange.2).symm
    rw [hget] at h
    cases hgen : generateTOTP (s.providers.getD i.toNat ⟨"", ""⟩).secret now with
    | error e =>
      rw [hgen] at h
      simp at h
      subst h
      simp [hgen]
    | ok c =>
      rw [hgen] at h
      simp at h
      subst h
      refine ⟨(updateCountdown_fields _ _).2.2.1, ?_⟩
      rw [(updateCountdown_fields _ _).1]

/-- C3: generateTOTP is constant on each 30-second epoch-aligned
window; on a well-formed base32 secret it returns a 6-digit code; and
selecting the same index twice within one window, with no intervening
list mutation, stores the same currentOTP both times. -/
theorem generateSameWindow :
    (∀ secret t1 t2, t1 / 30 = t2 / 30 →
        generateTOTP secret t1 = generateTOTP secret t2) ∧
    (∀ secret t, exceptIsOk (base32DecodeString secret) = true →
        ∃ c, generateTOTP secret t = .ok c ∧ c.length = 6) ∧
    (∀ s index t1 t2 s1 s2, t1 / 30 = t2 / 30 →
        selectProvider s index t1 = some s1 →
        selectProvider s1 index t2 = some s2 →
        s2.currentOTP = s1.currentOTP) := by
  refine ⟨generateTOTP_sameWindow, ?_, ?_⟩
  · intro secret t hok
    unfold generateTOTP
    cases hdec : base32DecodeString secret with
    | error e => simp [hdec, exceptIsOk] at hok
    | ok bs => exact ⟨_, rfl, zeroPad6_length _⟩
  · intro s index t1 t2 s1 s2 hw h1 h2
    obtain ⟨hp1, hc1⟩ := selectProvider_code s index t1 s1 h1
    obtain ⟨_, hc2⟩ := selectProvider_code s1 index t2 s2 h2
    rw [hc1, hc2, hp1, generateTOTP_sameWindow _ t1 t2 hw]

theorem generateSameWindow_witness :
    generateTOTP "JBSWY3DPEHPK3PXP" 65 = generateTOTP "JBSWY3DPEHPK3PXP" 89 :=
  generateSameWindow.1 "JBSWY3DPEHPK3PXP" 65 89 (by decide)

/-! ## C5: validation rejects before mutating state -/

/-- C5: an add-provider request with an empty name, an empty secret, or
a secret that is not valid base32 is rejected before any state
mutation: the in-memory provider list (and the whole session state
apart from the displayed error text) is unchanged and no write of
providers.json is attempted. -/
theorem addProviderRejectsInvalid (s : AppState) (nm sec : String) (saveErr : Option String)
    (now : Nat)
    (h : nm = "" ∨ sec = "" ∨ exceptIsOk (base32DecodeString sec) = false) :
    ∃ s', addProvider s nm sec saveErr now = some (s', false) ∧
      s'.providers = s.providers ∧
      s'.selectedProviderIndex = s.selectedProviderIndex ∧
      s'.currentOTP = s.currentOTP ∧
      s'.currentProvider = s.currentProvider := by
  unfold addProvider
  by_cases h1 : nm = ""
  · simp [h1]
  · rw [if_neg h1]
    by_cases h2 : sec = ""
    · simp [h2]
    · rw [if_neg h2]
      rcases h with h | h | h
      · exact absurd h h1
      · exact absurd h h2
      · cases hdec : base32DecodeString sec with
        | error e => simp
        | ok bs => simp [hdec, exceptIsOk] at h

theorem addProviderRejectsInvalid_witness :
    ∃ s', addProvider
        { providers := [], selectedProviderIndex := -1, currentOTP := "",
          currentProvider := "", otpView := "" } "work" "not-base32!" none 0 =
        some (s', false) ∧
      s'.providers = [] ∧ s'.selectedProviderIndex = -1 ∧
      s'.currentOTP = "" ∧ s'.currentProvider = "" :=
  addProviderRejectsInvalid _ "work" "not-base32!" none 0
    (Or.inr (Or.inr (by decide)))

/-! ## C4: the paired-presence invariant -/

/-- The selected index refers to a valid provider. -/
def validSelection (s : AppState) : Prop :=
  0 ≤ s.selectedProviderIndex ∧ s.selectedProviderIndex.toNat < s.providers.length

instance (s : AppState) : Decidable (validSelection s) := by
  unfold validSelection
  infer_instance

/-- The secret of the selected provider (default when out of range). -/
def selectedSecret (s : AppState) : String :=
  (s.providers.getD s.selectedProviderIndex.toNat ⟨"", ""⟩).secret

/-- The SessionState invariant: currentOTP and currentProvider are
both present or both absent, and they are present exactly when the
selection is valid and generation for the selected secret succeeds (in
this model a generation attempt succeeds iff the secret decodes as
base32, independently of the instant). -/
def SessionInv (s : AppState) : Prop :=
  (s.currentOTP = "" ↔ s.currentProvider = "") ∧
  (s.currentOTP ≠ "" ↔
    validSelection s ∧ exceptIsOk (base32DecodeString (selectedSecret s)) = true)

instance (s : AppState) : Decidable (SessionInv s) := by
  unfold SessionInv
  infer_instance

lemma sessionInv_set_view (s : AppState) (v : String) (h : SessionInv s) :
    SessionInv { s with otpView := v } := by
  simpa [SessionInv, validSelection, selectedSecret] using h

lemma generateTOTP_error_decode (secret : String) (now : Nat) (e : String)
    (h : generateTOTP secret now = .error e) :
    exceptIsOk (base32DecodeString secret) = false := by
  unfold generateTOTP at h
  cases hdec : base32DecodeString secret <;> rw [hdec] at h <;> simp_all [exceptIsOk]

lemma generateTOTP_ok_decode (secret : String) (now : Nat) (c : String)
    (h : generateTOTP secret now = .ok c) :
    exceptIsOk (base32DecodeString secret) = true := by
  unfold generateTOTP at h
  cases hdec : base32DecodeString secret <;> rw [hdec] at h <;> simp_all [exceptIsOk]

lemma generateTOTP_ok_ne_empty (secret : String) (now : Nat) (c : String)
    (h : generateTOTP secret now = .ok c) : c ≠ "" := by
  unfold generateTOTP at h
  cases hdec : base32DecodeString secret <;> rw [hdec] at h <;> simp_all
  exact h ▸ zeroPad6_ne_empty _

lemma sessionInv_ext (a b : AppState)
    (h1 : a.currentOTP = b.currentOTP) (h2 : a.currentProvider = b.currentProvider)
    (h3 : a.providers = b.providers) (h4 : a.selectedProviderIndex = b.selectedProviderIndex)
    (h : SessionInv b) : SessionInv a := by
  unfold SessionInv validSelection selectedSecret at *
  rw [h1, h2, h3, h4]
  exact h

/-- After any completed generateAndDisplayOTP, the invariant holds
outright (provider names being non-empty is the data-model constraint
the add-provider validation enforces). -/
lemma generateAndDisplayOTP_inv (s : AppState) (now : Nat)
    (hnames : ∀ p ∈ s.providers, p.name ≠ "") (s' : AppState)
    (h : generateAndDisplayOTP s now = some s') : SessionInv s' := by
  unfold generateAndDisplayOTP at h
  by_cases hg : s.providers.length = 0 ∨ s.selectedProviderIndex = -1
  · rw [if_pos hg] at h
    simp at h
    subst h
    rcases hg with hg | hg <;>
      simp [SessionInv, validSelection, selectedSecret, hg]
  · rw [if_neg hg] at h
    simp at h
    obtain ⟨hrange, h⟩ := h
    have hget : s.providers[s.selectedProviderIndex.toNat] =
        s.providers.getD s.selectedProviderIndex.toNat ⟨"", ""⟩ :=
      (List.getD_eq_getElem _ _ hrange.2).symm
    have hmem : s.providers.getD s.selectedProviderIndex.toNat ⟨"", ""⟩ ∈ s.providers := by
      rw [← hget]
      exact List.getElem_mem _
    rw [hget] at h
    cases hgen : generateTOTP (s.providers.getD s.selectedProviderIndex.toNat ⟨"", ""⟩).secret now with
    | error e =>
      rw [hgen] at h
      simp at h
      subst h
      have hdec := generateTOTP_error_decode _ _ _ hgen
      refine ⟨Iff.rfl, iff_of_false (fun hne => hne rfl) ?_⟩
      rintro ⟨-, hok⟩
      have hok' : exceptIsOk (base32DecodeString
          (s.providers.getD s.selectedProviderIndex.toNat ⟨"", ""⟩).secret) = true := hok
      rw [hdec] at hok'
      simp at hok'
    | ok c =>
      rw [hgen] at h
      simp at h
      subst h
      refine sessionInv_ext _ _ (updateCountdown_fields _ _).1 (updateCountdown_fields _ _).2.1
        (updateCountdown_fields _ _).2.2.1 (updateCountdown_fields _ _).2.2.2 ?_
      have hc : c ≠ "" := generateTOTP_ok_ne_empty _ _ _ hgen
      have hn : (s.providers.getD s.selectedProviderIndex.toNat ⟨"", ""⟩).name ≠ "" :=
        hnames _ hmem
      have hdec := generateTOTP_ok_decode _ _ _ hgen
      simp only [List.getD_eq_getElem?_getD] at hn hdec
      refine ⟨iff_of_false hc hn, iff_of_true hc ⟨hrange, ?_⟩⟩
      simp only [selectedSecret, List.getD_eq_getElem?_getD]
      exact hdec

/-- C4: every operation that touches session state — select, the
coarse refresh tick, add provider — preserves the invariant that
currentOTP and currentProvider are both present or both absent, and
present exactly when the selection is valid and the generation attempt
for it succeeded.  Hypotheses: the pre-state satisfies the invariant,
provider names are non-empty (the data-model constraint the
add-provider validation enforces), and the selection never exceeds the
list length (true in every reachable state, where indices come from
the provider list widget). -/
theorem sessionInvariantPreserved (s : AppState)
    (hinv : SessionInv s)
    (hnames : ∀ p ∈ s.providers, p.name ≠ "")
    (hsel : s.selectedProviderIndex < (s.providers.length : Int)) :
    (∀ i now s', selectProvider s i now = some s' → SessionInv s') ∧
    (∀ now s', coarseTick s now = some s' → SessionInv s') ∧
    (∀ nm sec saveErr now s' w,
        addProvider s nm sec saveErr now = some (s', w) → SessionInv s') := by
  refine ⟨?_, ?_, ?_⟩
  · intro i now s' h
    unfold selectProvider at h
    exact generateAndDisplayOTP_inv _ now (by simpa using hnames) s' h
  · intro now s' h
    unfold coarseTick at h
    split at h
    · exact generateAndDisplayOTP_inv _ now hnames s' h
    · simp at h
      subst h
      exact hinv
  · intro nm sec saveErr now s' w h
    unfold addProvider at h
    by_cases h1 : nm = ""
    · rw [if_pos h1] at h
      simp at h
      exact h.1 ▸ sessionInv_set_view s _ hinv
    · rw [if_neg h1] at h
      by_cases h2 : sec = ""
      · rw [if_pos h2] at h
        simp at h
        exact h.1 ▸ sessionInv_set_view s _ hinv
      · rw [if_neg h2] at h
        cases hdec : base32DecodeString sec with
        | error e =>
          rw [hdec] at h
          simp at h
          exact h.1 ▸ sessionInv_set_view s _ hinv
        | ok bs =>
          rw [hdec] at h
          cases saveErr with
          | some msg =>
            simp at h
            obtain ⟨hs, -⟩ := h
            subst hs
            obtain ⟨hpair, hpres⟩ := hinv
            refine ⟨hpair, hpres.trans ?_⟩
            unfold validSelection selectedSecret
            simp only []
            constructor
            · rintro ⟨⟨hge, hlt⟩, hok⟩
              refine ⟨⟨hge, by simp; omega⟩, ?_⟩
              rwa [List.getD_append _ _ _ _ (by omega)]
            · rintro ⟨⟨hge, hlt⟩, hok⟩
              have hlt' : s.selectedProviderIndex.toNat < s.providers.length := by omega
              refine ⟨⟨hge, hlt'⟩, ?_⟩
              rwa [List.getD_append _ _ _ _ hlt'] at hok
          | none =>
            simp at h
            obtain ⟨s3, hgen, hs, -⟩ := h
            subst hs
            refine generateAndDisplayOTP_inv _ now ?_ s3 hgen
            intro p hp
            simp at hp
            rcases hp with hp | hp
            · exact hnames p hp
            · rw [hp]
              exact h1

set_option maxRecDepth 4096 in
theorem sessionInvariantPreserved_witness :
    SessionInv { providers := [], selectedProviderIndex := -1, currentOTP := "",
                 currentProvider := "", otpView := noSelectionText } :=
  (sessionInvariantPreserved
      { providers := [], selectedProviderIndex := -1, currentOTP := "",
        currentProvider := "", otpView := "" }
      (by decide) (by simp) (by decide)).1 (-1) 0
    { providers := [], selectedProviderIndex := -1, currentOTP := "",
      currentProvider := "", otpView := noSelectionText } (by decide)

/-! ## C10: readSecretFromFile trims surrounding whitespace -/

lemma dropWhile_append_all {p : Char → Bool} (ws l : List Char)
    (h : ∀ c ∈ ws, p c = true) :
    (ws ++ l).dropWhile p = l.dropWhile p := by
  induction ws with
  | nil => rfl
  | cons c ws ih =>
    have hc : p c = true := h c (by simp)
    simp only [List.cons_append, List.dropWhile_cons, hc, if_true]
    exact ih (fun d hd => h d (by simp [hd]))

lemma dropWhile_all_nil {p : Char → Bool} (ws : List Char)
    (h : ∀ c ∈ ws, p c = true) : ws.dropWhile p = [] := by
  rw [List.dropWhile_eq_nil_iff]
  exact h

lemma dropWhile_head_false {p : Char → Bool} (l : List Char) (c : Char)
    (hh : l.head? = some c) (hc : p c = false) : l.dropWhile p = l := by
  cases l with
  | nil => simp at hh
  | cons a l =>
    simp at hh
    subst hh
    simp [List.dropWhile_cons, hc]

/-- Trimming a well-formed core surrounded by whitespace recovers
exactly the core. -/
lemma trimSpace_sandwich (ws1 core ws2 : List Char)
    (h1 : ∀ c ∈ ws1, isSpace c = true) (h2 : ∀ c ∈ ws2, isSpace c = true)
    (hh : ∀ c, core.head? = some c → isSpace c = false)
    (hl : ∀ c, core.getLast? = some c → isSpace c = false) :
    trimSpace (ws1 ++ core ++ ws2) = core := by
  unfold trimSpace
  rw [List.append_assoc, dropWhile_append_all _ _ h1]
  rcases core with _ | ⟨a, core'⟩
  · rw [List.nil_append, dropWhile_all_nil _ h2]
    rfl
  · have ha : isSpace a = false := hh a rfl
    rw [dropWhile_head_false ((a :: core') ++ ws2) a (by rw [List.cons_append]; rfl) ha]
    rw [List.reverse_append]
    rw [dropWhile_append_all _ _ (fun c hc => h2 c (List.mem_reverse.mp hc))]
    cases hb : (a :: core').getLast? with
    | none => simp at hb
    | some b =>
      have hb' : (a :: core').reverse.head? = some b := by
        rw [List.head?_reverse]
        exact hb
      rw [dropWhile_head_false _ b hb' (hl b hb), List.reverse_reverse]

/-- C10: for a file whose (lower-cased) extension is .txt or .key and
whose content is a valid base32 secret surrounded by leading and
trailing whitespace, readSecretFromFile strips the whitespace before
validating and returns the trimmed secret, which carries no leading or
trailing whitespace. -/
theorem readSecretTrimsWhitespace (filePath : String) (ws1 core ws2 : List Char)
    (hext : asciiLower (filepathExt filePath) = ".txt" ∨
            asciiLower (filepathExt filePath) = ".key")
    (h1 : ∀ c ∈ ws1, isSpace c = true) (h2 : ∀ c ∈ ws2, isSpace c = true)
    (hh : ∀ c, core.head? = some c → isSpace c = false)
    (hl : ∀ c, core.getLast? = some c → isSpace c = false)
    (hdec : exceptIsOk (base32DecodeString (String.mk core)) = true) :
    readSecretFromFile filePath (String.mk (ws1 ++ core ++ ws2)) = .ok (String.mk core) ∧
    (∀ c, (String.mk core).toList.head? = some c → isSpace c = false) ∧
    (∀ c, (String.mk core).toList.getLast? = some c → isSpace c = false) := by
  refine ⟨?_, hh, hl⟩
  unfold readSecretFromFile
  rw [if_pos hext]
  have htrim : trimSpace (String.mk (ws1 ++ core ++ ws2)).toList = core :=
    trimSpace_sandwich ws1 core ws2 h1 h2 hh hl
  rw [htrim]
  cases hd : base32DecodeString (String.mk core) with
  | error e => rw [hd] at hdec; simp [exceptIsOk] at hdec
  | ok bs => simp only [hd]

theorem readSecretTrimsWhitespace_witness :
    readSecretFromFile "secret.txt"
        (String.mk ([' ', '\t'] ++
          ['J','B','S','W','Y','3','D','P','E','H','P','K','3','P','X','P'] ++ ['\n'])) =
      .ok (String.mk ['J','B','S','W','Y','3','D','P','E','H','P','K','3','P','X','P']) ∧
    (∀ c, (String.mk ['J','B','S','W','Y','3','D','P','E','H','P','K','3','P','X','P']).toList.head? =
        some c → isSpace c = false) ∧
    (∀ c, (String.mk ['J','B','S','W','Y','3','D','P','E','H','P','K','3','P','X','P']).toList.getLast? =
        some c → isSpace c = false) :=
  readSecretTrimsWhitespace "secret.txt" [' ', '\t']
    ['J','B','S','W','Y','3','D','P','E','H','P','K','3','P','X','P'] ['\n']
    (Or.inl (by decide)) (by decide) (by decide)
    (by intro c hc; simp at hc; subst hc; decide)
    (by intro c hc; simp at hc; subst hc; decide)
    (by decide)

/-! ## C8: listDirectory (src/filepicker.go)

FileInfo keeps Name, IsDir, IsParent; the Path field (filepath.Join of
the absolute directory and the name) is display glue no claim touches
and is omitted.  entries is what ioutil.ReadDir returned — directory
contents, never containing "." or "..".  Go strings compare by UTF-8
bytes, which orders exactly like the code points compared here. -/

structure DirEntry where
  name : List Char
  isDir : Bool
deriving DecidableEq, Repr

structure FileInfo where
  name : List Char
  isDir : Bool
  isParent : Bool
deriving DecidableEq, Repr

/-- strings.HasPrefix(name, "."). -/
def isHiddenName : List Char → Bool
  | '.' :: _ => true
  | _ => false

/-- The synthetic parent-directory entry. -/
def parentInfo : FileInfo := ⟨['.', '.'], true, true⟩

/-- strings.ToLower (ASCII model, as for the extension compare). -/
def toLowerName (l : List Char) : List Char := l.map Char.toLower

/-- Go string operator < (lexicographic). -/
def lexLt : List Char → List Char → Bool
  | [], [] => false
  | [], _ :: _ => true
  | _ :: _, [] => false
  | a :: as, b :: bs => if a < b then true else if b < a then false else lexLt as bs

/-- The comparator passed to sort.Slice in listDirectory. -/
def sortLess (a b : FileInfo) : Bool :=
  if a.isParent then true
  else if b.isParent then false
  else if a.isDir != b.isDir then a.isDir
  else lexLt (toLowerName a.name) (toLowerName b.name)

/-- The matching non-strict order: a may stay before b. -/
def goLe (a b : FileInfo) : Bool := !sortLess b a

def insertLe (x : FileInfo) : List FileInfo → List FileInfo
  | [] => [x]
  | y :: ys => if goLe x y then x :: y :: ys else y :: insertLe x ys

/-- sort.Slice guarantees only sortedness w.r.t. the comparator of some
permutation of the slice; this insertion sort realises that contract
deterministically. -/
def sortByLe : List FileInfo → List FileInfo
  | [] => []
  | x :: xs => insertLe x (sortByLe xs)

/-- listDirectory (src/filepicker.go): parent entry first, hidden names
skipped, then sorted by the comparator. -/
def listDirectory (entries : List DirEntry) : List FileInfo :=
  let result := parentInfo ::
    (entries.filter (fun e => !isHiddenName e.name)).map
      (fun e => ⟨e.name, e.isDir, false⟩)
  sortByLe result

lemma lexLt_irrefl (l : List Char) : lexLt l l = false := by
  induction l with
  | nil => rfl
  | cons a as ih => simp [lexLt, lt_irrefl, ih]

lemma lexLt_trans : ∀ {x y z : List Char},
    lexLt x y = true → lexLt y z = true → lexLt x z = true
  | [], [], _, h1, _ => by simp [lexLt] at h1
  | [], _ :: _, [], _, h2 => by simp [lexLt] at h2
  | [], _ :: _, _ :: _, _, _ => rfl
  | _ :: _, [], _, h1, _ => by simp [lexLt] at h1
  | _ :: _, _ :: _, [], _, h2 => by simp [lexLt] at h2
  | a :: as, b :: bs, c :: cs, h1, h2 => by
    simp only [lexLt] at h1 h2 ⊢
    by_cases hab : a < b
    · by_cases hbc : b < c
      · simp [lt_trans hab hbc]
      · by_cases hcb : c < b
        · simp [hbc, hcb] at h2
        · have : b = c := le_antisymm (not_lt.mp hcb) (not_lt.mp hbc)
          subst this
          simp [hab]
    · by_cases hba : b < a
      · simp [hab, hba] at h1
      · have : a = b := le_antisymm (not_lt.mp hba) (not_lt.mp hab)
        subst this
        rw [if_neg hab, if_neg hba] at h1
        by_cases hbc : a < c
        · simp [hbc]
        · by_cases hcb : c < a
          · simp [hbc, hcb] at h2
          · have : a = c := le_antisymm (not_lt.mp hcb) (not_lt.mp hbc)
            subst this
            rw [if_neg hbc, if_neg hcb] at h2 ⊢
            exact lexLt_trans h1 h2

lemma lexLt_asymm {x y : List Char} (h : lexLt x y = true) : lexLt y x = false := by
  cases hxy : lexLt y x
  · rfl
  · have h2 := lexLt_trans h hxy
    rw [lexLt_irrefl] at h2
    simp at h2

lemma lexLt_total : ∀ {x y : List Char},
    lexLt x y = false → lexLt y x = false → x = y
  | [], [], _, _ => rfl
  | [], _ :: _, h1, _ => by simp [lexLt] at h1
  | _ :: _, [], _, h2 => by simp [lexLt] at h2
  | a :: as, b :: bs, h1, h2 => by
    simp only [lexLt] at h1 h2
    by_cases hab : a < b
    · simp [hab] at h1
    · by_cases hba : b < a
      · simp [hab, hba] at h1
        simp [hba] at h2
      · have hab' : a = b := le_antisymm (not_lt.mp hba) (not_lt.mp hab)
        subst hab'
        rw [if_neg hab, if_neg hba] at h1 h2
        rw [lexLt_total h1 h2]

/-- la ≤ lb ≤ lc gives la ≤ lc, phrased on the strict boolean. -/
lemma lexLt_false_trans {x y z : List Char}
    (hxy : lexLt x y = false) (hyz : lexLt y z = false) : lexLt x z = false := by
  cases hxz : lexLt x z
  · rfl
  · by_cases hzy : lexLt z y = true
    · have := lexLt_trans hxz hzy
      rw [this] at hxy
      exact hxy
    · have : z = y := lexLt_total (by simpa using hzy) hyz
      subst this
      rw [hxz] at hxy
      exact hxy

lemma sortLess_parent_left (x : FileInfo) : sortLess parentInfo x = true := by
  unfold sortLess parentInfo
  simp

lemma sortLess_parent_right (x : FileInfo) (hx : x.isParent = false) :
    sortLess x parentInfo = false := by
  unfold sortLess parentInfo
  simp [hx]

/-- The comparator is transitive as a non-strict order (a may precede
b, b may precede c, hence a may precede c). -/
lemma sortLess_false_trans (a b c : FileInfo)
    (h1 : sortLess b a = false) (h2 : sortLess c b = false) : sortLess c a = false := by
  unfold sortLess at h1 h2 ⊢
  by_cases hc : c.isParent = true
  · simp [hc] at h2
  · by_cases ha : a.isParent = true
    · simp [hc, ha]
    · by_cases hb : b.isParent = true
      · simp [hb, ha] at h1
      · simp only [hc, ha, hb, if_false, Bool.false_eq_true] at h1 h2 ⊢
        cases hda : a.isDir <;> cases hdb : b.isDir <;> cases hdc : c.isDir <;>
            simp_all <;>
          exact lexLt_false_trans h2 h1

lemma goLe_total_nonparent (a b : FileInfo)
    (ha : a.isParent = false) (hb : b.isParent = false) :
    goLe a b = true ∨ goLe b a = true := by
  unfold goLe
  simp only [Bool.not_eq_true']
  unfold sortLess
  cases hda : a.isDir <;> cases hdb : b.isDir <;> simp [ha, hb, hda, hdb]
  all_goals
    cases hlex : lexLt (toLowerName b.name) (toLowerName a.name) with
    | false => exact Or.inl rfl
    | true => exact Or.inr (lexLt_asymm hlex)

lemma insertLe_perm (x : FileInfo) (l : List FileInfo) :
    (insertLe x l).Perm (x :: l) := by
  induction l with
  | nil => exact List.Perm.refl _
  | cons y ys ih =>
    unfold insertLe
    split
    · exact List.Perm.refl _
    · exact (ih.cons y).trans (List.Perm.swap x y ys)

lemma sortByLe_perm (l : List FileInfo) : (sortByLe l).Perm l := by
  induction l with
  | nil => exact List.Perm.refl _
  | cons x xs ih => exact (insertLe_perm x (sortByLe xs)).trans (ih.cons x)

lemma goLe_trans {a b c : FileInfo} (h1 : goLe a b = true) (h2 : goLe b c = true) :
    goLe a c = true := by
  unfold goLe at h1 h2 ⊢
  rw [Bool.not_eq_true'] at h1 h2 ⊢
  exact sortLess_false_trans a b c h1 h2

lemma pairwise_insertLe (x : FileInfo) (l : List FileInfo)
    (htot : ∀ y ∈ l, goLe x y = true ∨ goLe y x = true)
    (hp : l.Pairwise (fun a b => goLe a b = true)) :
    (insertLe x l).Pairwise (fun a b => goLe a b = true) := by
  induction l with
  | nil => simp [insertLe]
  | cons y ys ih =>
    rw [List.pairwise_cons] at hp
    obtain ⟨hy, hys⟩ := hp
    unfold insertLe
    by_cases hxy : goLe x y = true
    · rw [if_pos hxy, List.pairwise_cons]
      refine ⟨?_, List.pairwise_cons.mpr ⟨hy, hys⟩⟩
      intro z hz
      rcases List.mem_cons.mp hz with rfl | hz
      · exact hxy
      · exact goLe_trans hxy (hy z hz)
    · rw [if_neg hxy, List.pairwise_cons]
      have hyx : goLe y x = true := (htot y (by simp)).resolve_left hxy
      constructor
      · intro z hz
        rcases List.mem_cons.mp ((insertLe_perm x ys).subset hz) with rfl | hz2
        · exact hyx
        · exact hy z hz2
      · exact ih (fun z hz => htot z (by simp [hz])) hys

lemma pairwise_sortByLe (l : List FileInfo)
    (htot : l.Pairwise (fun a b => goLe a b = true ∨ goLe b a = true)) :
    (sortByLe l).Pairwise (fun a b => goLe a b = true) := by
  induction l with
  | nil => simp [sortByLe]
  | cons x xs ih =>
    rw [List.pairwise_cons] at htot
    obtain ⟨hx, hxs⟩ := htot
    unfold sortByLe
    refine pairwise_insertLe x (sortByLe xs) ?_ (ih hxs)
    intro y hy
    exact hx y ((sortByLe_perm xs).subset hy)

lemma pairwise_of_mem {R : FileInfo → FileInfo → Prop} :
    ∀ (l : List FileInfo), (∀ a ∈ l, ∀ b ∈ l, R a b) → l.Pairwise R
  | [], _ => List.Pairwise.nil
  | x :: xs, h => by
    rw [List.pairwise_cons]
    exact ⟨fun z hz => h x (by simp) z (by simp [hz]),
           pairwise_of_mem xs (fun a ha b hb => h a (by simp [ha]) b (by simp [hb]))⟩

lemma dropWhile_head_not {p : FileInfo → Bool} : ∀ (l : List FileInfo) {g : FileInfo}
    {gs : List FileInfo}, l.dropWhile p = g :: gs → p g = false
  | [], g, gs, h => by simp at h
  | x :: xs, g, gs, h => by
    rw [List.dropWhile_cons] at h
    by_cases hx : p x = true
    · rw [if_pos hx] at h
      exact dropWhile_head_not xs h
    · rw [if_neg hx] at h
      cases h
      simpa using hx

/-- C8: for every directory listing, listDirectory returns the
synthetic ".." parent entry first, then all non-hidden directories,
then all non-hidden files, each group sorted alphabetically
case-insensitively; every entry whose name starts with a dot is
excluded. -/
theorem listDirectorySpec (entries : List DirEntry) :
    ∃ ds fs : List FileInfo,
      listDirectory entries = parentInfo :: (ds ++ fs) ∧
      (ds ++ fs).Perm
        ((entries.filter (fun e => !isHiddenName e.name)).map
          (fun e => ⟨e.name, e.isDir, false⟩)) ∧
      (∀ x ∈ ds, x.isDir = true ∧ x.isParent = false ∧ isHiddenName x.name = false) ∧
      (∀ x ∈ fs, x.isDir = false ∧ x.isParent = false ∧ isHiddenName x.name = false) ∧
      ds.Pairwise (fun a b => lexLt (toLowerName b.name) (toLowerName a.name) = false) ∧
      fs.Pairwise (fun a b => lexLt (toLowerName b.name) (toLowerName a.name) = false) := by
  set mapped : List FileInfo := (entries.filter (fun e => !isHiddenName e.name)).map
      (fun e => ⟨e.name, e.isDir, false⟩) with hmapped
  have hmPar : ∀ x ∈ mapped, x.isParent = false := by
    intro x hx
    rw [hmapped] at hx
    obtain ⟨e, he, rfl⟩ := List.mem_map.mp hx
    rfl
  have hmHid : ∀ x ∈ mapped, isHiddenName x.name = false := by
    intro x hx
    rw [hmapped] at hx
    obtain ⟨e, he, rfl⟩ := List.mem_map.mp hx
    have h2 := (List.mem_filter.mp he).2
    simpa using h2
  have hld : listDirectory entries = sortByLe (parentInfo :: mapped) := rfl
  have hperm : (sortByLe (parentInfo :: mapped)).Perm (parentInfo :: mapped) := sortByLe_perm _
  have hp : (sortByLe (parentInfo :: mapped)).Pairwise (fun a b => goLe a b = true) := by
    apply pairwise_sortByLe
    rw [List.pairwise_cons]
    refine ⟨?_, pairwise_of_mem mapped (fun a ha b hb =>
      goLe_total_nonparent a b (hmPar a ha) (hmPar b hb))⟩
    intro y hy
    left
    unfold goLe
    rw [sortLess_parent_right y (hmPar y hy)]
    rfl
  obtain ⟨hd, rest, hr⟩ : ∃ hd rest, sortByLe (parentInfo :: mapped) = hd :: rest := by
    cases hs : sortByLe (parentInfo :: mapped) with
    | nil =>
      have hlen := hperm.length_eq
      rw [hs] at hlen
      simp at hlen
    | cons hd rest => exact ⟨hd, rest, rfl⟩
  have hpmem : parentInfo ∈ hd :: rest := by
    rw [← hr]
    exact hperm.mem_iff.mpr (by simp)
  have hhd : hd = parentInfo := by
    rcases List.mem_cons.mp hpmem with h | h
    · exact h.symm
    · have hp' := hp
      rw [hr, List.pairwise_cons] at hp'
      have hgl := hp'.1 parentInfo h
      have hdm : hd ∈ parentInfo :: mapped := hperm.subset (by rw [hr]; simp)
      rcases List.mem_cons.mp hdm with h' | h'
      · exact h'
      · exfalso
        unfold goLe at hgl
        rw [sortLess_parent_left] at hgl
        simp at hgl
  subst hhd
  have hrp : rest.Perm mapped := by
    have h2 : (parentInfo :: rest).Perm (parentInfo :: mapped) := by
      rw [← hr]
      exact hperm
    exact h2.cons_inv
  have hpr : rest.Pairwise (fun a b => goLe a b = true) := by
    have h2 := hp
    rw [hr, List.pairwise_cons] at h2
    exact h2.2
  have hsplit : rest.takeWhile (fun y => y.isDir) ++ rest.dropWhile (fun y => y.isDir) = rest :=
    List.takeWhile_append_dropWhile _ _
  have hfsdir : ∀ x ∈ rest.dropWhile (fun y => y.isDir), x.isDir = false := by
    intro x hx
    cases hfse : rest.dropWhile (fun y => y.isDir) with
    | nil => rw [hfse] at hx; simp at hx
    | cons g gs =>
      rw [hfse] at hx
      have hg : g.isDir = false := dropWhile_head_not rest hfse
      rcases List.mem_cons.mp hx with rfl | hx2
      · exact hg
      · by_contra hxd
        have hxd' : x.isDir = true := by
          cases hxx : x.isDir
          · exact absurd hxx hxd
          · rfl
        have hrest2 := hpr
        rw [← hsplit, hfse] at hrest2
        have hgx := (List.pairwise_append.mp hrest2).2.1
        rw [List.pairwise_cons] at hgx
        have hgoal := hgx.1 x hx2
        have hxm : x ∈ mapped := hrp.subset ((List.dropWhile_sublist _).subset (by rw [hfse]; simp [hx2]))
        have hgm : g ∈ mapped := hrp.subset ((List.dropWhile_sublist _).subset (by rw [hfse]; simp))
        unfold goLe at hgoal
        rw [Bool.not_eq_true'] at hgoal
        unfold sortLess at hgoal
        simp [hmPar x hxm, hmPar g hgm, hxd', hg] at hgoal
  refine ⟨rest.takeWhile (fun y => y.isDir), rest.dropWhile (fun y => y.isDir),
    ?_, ?_, ?_, ?_, ?_, ?_⟩
  · rw [hld, hr, hsplit]
  · rw [hsplit]
    exact hrp
  · intro x hx
    have hxd : x.isDir = true := List.mem_takeWhile_imp hx
    have hxm : x ∈ mapped := hrp.subset ((List.takeWhile_sublist _).subset hx)
    exact ⟨hxd, hmPar x hxm, hmHid x hxm⟩
  · intro x hx
    have hxm : x ∈ mapped := hrp.subset ((List.dropWhile_sublist _).subset hx)
    exact ⟨hfsdir x hx, hmPar x hxm, hmHid x hxm⟩
  · have h1 : (rest.takeWhile (fun y => y.isDir)).Pairwise (fun a b => goLe a b = true) := by
      have h2 := hpr
      rw [← hsplit] at h2
      exact (List.pairwise_append.mp h2).1
    refine h1.imp_of_mem ?_
    intro a b ha hb hR
    have ham : a ∈ mapped := hrp.subset ((List.takeWhile_sublist _).subset ha)
    have hbm : b ∈ mapped := hrp.subset ((List.takeWhile_sublist _).subset hb)
    have had : a.isDir = true := List.mem_takeWhile_imp ha
    have hbd : b.isDir = true := List.mem_takeWhile_imp hb
    unfold goLe at hR
    rw [Bool.not_eq_true'] at hR
    unfold sortLess at hR
    simpa [hmPar a ham, hmPar b hbm, had, hbd] using hR
  · have h1 : (rest.dropWhile (fun y => y.isDir)).Pairwise (fun a b => goLe a b = true) := by
      have h2 := hpr
      rw [← hsplit] at h2
      exact (List.pairwise_append.mp h2).2.1
    refine h1.imp_of_mem ?_
    intro a b ha hb hR
    have ham : a ∈ mapped := hrp.subset ((List.dropWhile_sublist _).subset ha)
    have hbm : b ∈ mapped := hrp.subset ((List.dropWhile_sublist _).subset hb)
    have had : a.isDir = false := hfsdir a ha
    have hbd : b.isDir = false := hfsdir b hb
    unfold goLe at hR
    rw [Bool.not_eq_true'] at hR
    unfold sortLess at hR
    simpa [hmPar a ham, hmPar b hbm, had, hbd] using hR

/-! ## C6: saveProviders / loadProviders round trip

saveProviders writes json.MarshalIndent(providers, "", "  ") to
providers.json; loadProviders reads the file and json.Unmarshal-s it
into []Provider.  The file system is made explicit: saveProviders
returns the written content, loadProviders receives it (the
file-exists, MkdirAll and read-error paths of the source are I/O
plumbing around these contents).  encoding/json is the Go standard
library; embedded here are its encoder output for this concrete type
and a general JSON parser with the unmarshalling rules for []Provider
(case-insensitive field match, unknown fields ignored, null handling,
trailing data rejected).  Numbers are lexed coarsely — providers.json
holds only strings.  Lean strings are sequences of unicode scalars, so
the byte-level U+FFFD replacement Go applies to invalid UTF-8 has no
counterpart here. -/

def hexDigitChar (n : Nat) : Char :=
  if n < 10 then Char.ofNat (48 + n) else Char.ofNat (87 + n)

/-- encoding/json string escaping (HTML escaping on, as in Marshal). -/
def escJsonChar (c : Char) : List Char :=
  if c = '"' then ['\\', '"']
  else if c = '\\' then ['\\', '\\']
  else if c = '\n' then ['\\', 'n']
  else if c = '\r' then ['\\', 'r']
  else if c = '\t' then ['\\', 't']
  else if c.toNat < 0x20 then
    ['\\', 'u', '0', '0', hexDigitChar (c.toNat / 16), hexDigitChar (c.toNat % 16)]
  else if c = '<' then ['\\', 'u', '0', '0', '3', 'c']
  else if c = '>' then ['\\', 'u', '0', '0', '3', 'e']
  else if c = '&' then ['\\', 'u', '0', '0', '2', '6']
  else if c.toNat = 0x2028 then ['\\', 'u', '2', '0', '2', '8']
  else if c.toNat = 0x2029 then ['\\', 'u', '2', '0', '2', '9']
  else [c]

def escJsonString (s : List Char) : List Char :=
  s.foldr (fun c acc => escJsonChar c ++ acc) []

def quoteJson (s : List Char) : List Char := '"' :: (escJsonString s ++ ['"'])

/-- One array item of json.MarshalIndent(providers, "", "  "):
two spaces, an object with the Name and Secret fields at four spaces,
colon followed by one space, 2-space-indented closing brace. -/
def marshalProviderItem (p : Provider) : List Char :=
  [' ', ' ', '\x7b', '\n', ' ', ' ', ' ', ' ', '"', 'N', 'a', 'm', 'e', '"', ':', ' '] ++
  quoteJson p.name.toList ++
  [',', '\n', ' ', ' ', ' ', ' ', '"', 'S', 'e', 'c', 'r', 'e', 't', '"', ':', ' '] ++
  quoteJson p.secret.toList ++
  ['\n', ' ', ' ', '\x7d']

/-- Items separated by ",\n". -/
def joinItems : List (List Char) → List Char
  | [] => []
  | [x] => x
  | x :: y :: rest => x ++ ',' :: '\n' :: joinItems (y :: rest)

/-- saveProviders, at content level: the exact
json.MarshalIndent(providers, "", "  ") text written to
providers.json. -/
def saveProviders (providers : List Provider) : String :=
  match providers with
  | [] => "[]"
  | _ =>
    String.mk ('[' :: '\n' :: (joinItems (providers.map marshalProviderItem) ++ ['\n', ']']))

inductive JValue where
  | null
  | bool (b : Bool)
  | num (raw : List Char)
  | str (s : List Char)
  | arr (elems : List JValue)
  | obj (members : List (List Char × JValue))

def jsonWs (c : Char) : Bool := c = ' ' || c = '\t' || c = '\n' || c = '\r'

def skipWs (l : List Char) : List Char := l.dropWhile jsonWs

def hexVal (c : Char) : Option Nat :=
  if '0' ≤ c ∧ c ≤ '9' then some (c.toNat - 48)
  else if 'a' ≤ c ∧ c ≤ 'f' then some (c.toNat - 87)
  else if 'A' ≤ c ∧ c ≤ 'F' then some (c.toNat - 55)
  else none

/-- The single-character escapes the Go json unquoting accepts. -/
def unescapeSimple (e : Char) : Option Char :=
  if e = '"' then some '"'
  else if e = '\\' then some '\\'
  else if e = '/' then some '/'
  else if e = '\'' then some '\''
  else if e = 'b' then some '\x08'
  else if e = 'f' then some '\x0c'
  else if e = 'n' then some '\n'
  else if e = 'r' then some '\r'
  else if e = 't' then some '\t'
  else none

mutual

/-- JSON string body after the opening quote, with the Go unquoting. -/
def parseJString : List Char → Except Unit (List Char × List Char)
  | [] => .error ()
  | c :: rest =>
    if c = '"' then .ok ([], rest)
    else if c = '\\' then parseJStringEsc rest
    else if c.toNat < 0x20 then .error ()
    else (parseJString rest).map (fun sr => (c :: sr.1, sr.2))
termination_by l => 2 * l.length
decreasing_by all_goals simp_arith <;> omega

/-- After a backslash. -/
def parseJStringEsc : List Char → Except Unit (List Char × List Char)
  | [] => .error ()
  | e :: rest =>
    if e = 'u' then parseJStringU rest
    else
      match unescapeSimple e with
      | some c => (parseJString rest).map (fun sr => (c :: sr.1, sr.2))
      | none => .error ()
termination_by l => 2 * l.length + 1
decreasing_by all_goals simp_arith <;> omega

/-- After a backslash-u: four hex digits; a surrogate attempts to pair
with a following escape, a lone surrogate becomes U+FFFD with scanning
continuing at the next character, as the Go unquoting does. -/
def parseJStringU : List Char → Except Unit (List Char × List Char)
  | h1 :: h2 :: h3 :: h4 :: rest =>
    match hexVal h1, hexVal h2, hexVal h3, hexVal h4 with
    | some a, some b, some c, some d =>
      let cp := ((a * 16 + b) * 16 + c) * 16 + d
      if 0xD800 ≤ cp ∧ cp ≤ 0xDBFF then
        parseJStringPair cp rest
      else if 0xDC00 ≤ cp ∧ cp ≤ 0xDFFF then
        (parseJString rest).map (fun sr => ('�' :: sr.1, sr.2))
      else
        (parseJString rest).map (fun sr => (Char.ofNat cp :: sr.1, sr.2))
    | _, _, _, _ => .error ()
  | _ => .error ()
termination_by l => 2 * l.length + 1
decreasing_by all_goals simp_arith <;> omega

/-- Lookahead for the low half of a surrogate pair; when there is
none, the high half becomes U+FFFD and scanning resumes unmoved. -/
def parseJStringPair (cp : Nat) : List Char → Except Unit (List Char × List Char)
  | '\\' :: 'u' :: g1 :: g2 :: g3 :: g4 :: rest2 =>
    match hexVal g1, hexVal g2, hexVal g3, hexVal g4 with
    | some a2, some b2, some c2, some d2 =>
      let cp2 := ((a2 * 16 + b2) * 16 + c2) * 16 + d2
      if 0xDC00 ≤ cp2 ∧ cp2 ≤ 0xDFFF then
        (parseJString rest2).map (fun sr =>
          (Char.ofNat (0x10000 + (cp - 0xD800) * 0x400 + (cp2 - 0xDC00)) :: sr.1, sr.2))
      else
        (parseJString ('\\' :: 'u' :: g1 :: g2 :: g3 :: g4 :: rest2)).map
          (fun sr => ('�' :: sr.1, sr.2))
    | _, _, _, _ =>
      (parseJString ('\\' :: 'u' :: g1 :: g2 :: g3 :: g4 :: rest2)).map
        (fun sr => ('�' :: sr.1, sr.2))
  | l => (parseJString l).map (fun sr => ('�' :: sr.1, sr.2))
termination_by l => 2 * l.length + 1
decreasing_by all_goals simp_arith <;> omega

end

def isNumChar (c : Char) : Bool :=
  ('0' ≤ c && c ≤ '9') || c = '-' || c = '+' || c = '.' || c = 'e' || c = 'E'

mutual

/-- General JSON value parser; the fuel bounds nesting and element
count, and the top level supplies more than the input length. -/
def parseJValue : Nat → List Char → Except Unit (JValue × List Char)
  | 0, _ => .error ()
  | fuel + 1, input =>
    match skipWs input with
    | 'n' :: 'u' :: 'l' :: 'l' :: rest => .ok (.null, rest)
    | 't' :: 'r' :: 'u' :: 'e' :: rest => .ok (.bool true, rest)
    | 'f' :: 'a' :: 'l' :: 's' :: 'e' :: rest => .ok (.bool false, rest)
    | '"' :: rest =>
      match parseJString rest with
      | .ok (s, r) => .ok (.str s, r)
      | .error e => .error e
    | '[' :: rest =>
      match skipWs rest with
      | ']' :: r2 => .ok (.arr [], r2)
      | _ => parseElems fuel rest []
    | '\x7b' :: rest =>
      match skipWs rest with
      | '\x7d' :: r2 => .ok (.obj [], r2)
      | _ => parseMembers fuel rest []
    | c :: rest =>
      if isNumChar c then
        .ok (.num ((c :: rest).takeWhile isNumChar), (c :: rest).dropWhile isNumChar)
      else .error ()
    | [] => .error ()

/-- Array elements after the opening bracket (non-empty array). -/
def parseElems : Nat → List Char → List JValue → Except Unit (JValue × List Char)
  | 0, _, _ => .error ()
  | fuel + 1, input, acc =>
    match parseJValue fuel input with
    | .error e => .error e
    | .ok (v, rest) =>
      match skipWs rest with
      | ',' :: r2 => parseElems fuel r2 (v :: acc)
      | ']' :: r2 => .ok (.arr (v :: acc).reverse, r2)
      | _ => .error ()

/-- Object members after the opening brace (non-empty object). -/
def parseMembers : Nat → List Char → List (List Char × JValue) →
    Except Unit (JValue × List Char)
  | 0, _, _ => .error ()
  | fuel + 1, input, acc =>
    match skipWs input with
    | '"' :: rest =>
      match parseJString rest with
      | .error e => .error e
      | .ok (k, r1) =>
        match skipWs r1 with
        | ':' :: r2 =>
          match parseJValue fuel r2 with
          | .error e => .error e
          | .ok (v, r3) =>
            match skipWs r3 with
            | ',' :: r4 => parseMembers fuel r4 ((k, v) :: acc)
            | '\x7d' :: r4 => .ok (.obj ((k, v) :: acc).reverse, r4)
            | _ => .error ()
        | _ => .error ()
    | _ => .error ()

end

/-- Go matches JSON keys to exported struct field names
case-insensitively (ASCII model). -/
def keyEqFold (k target : List Char) : Bool :=
  k.map Char.toLower == target.map Char.toLower

def setProviderField (p : Provider) (k : List Char) (v : JValue) : Except Unit Provider :=
  if keyEqFold k ['N', 'a', 'm', 'e'] then
    match v with
    | .str s => .ok { p with name := String.mk s }
    | .null => .ok p
    | _ => .error ()
  else if keyEqFold k ['S', 'e', 'c', 'r', 'e', 't'] then
    match v with
    | .str s => .ok { p with secret := String.mk s }
    | .null => .ok p
    | _ => .error ()
  else .ok p

def providerOfJValue : JValue → Except Unit Provider
  | .null => .ok ⟨"", ""⟩
  | .obj members => members.foldlM (fun p kv => setProviderField p kv.1 kv.2) ⟨"", ""⟩
  | _ => .error ()

/-- Element-wise decoding, aborting on the first failure as
json.Unmarshal does. -/
def decodeElems : List JValue → Except Unit (List Provider)
  | [] => .ok []
  | v :: vs =>
    match providerOfJValue v with
    | .error e => .error e
    | .ok p =>
      match decodeElems vs with
      | .error e => .error e
      | .ok l => .ok (p :: l)

def providersOfJValue : JValue → Except Unit (List Provider)
  | .null => .ok []
  | .arr vs => decodeElems vs
  | _ => .error ()

/-- loadProviders, at content level: json.Unmarshal of the file text
into []Provider. -/
def loadProviders (content : String) : Except Unit (List Provider) :=
  match parseJValue (content.toList.length + 1) content.toList with
  | .error e => .error e
  | .ok (v, rest) =>
    if skipWs rest = [] then providersOfJValue v
    else .error ()

/-- The JSON tree the encoder produces for one provider. -/
def provJ (p : Provider) : JValue :=
  .obj [(['N', 'a', 'm', 'e'], .str p.name.toList),
        (['S', 'e', 'c', 'r', 'e', 't'], .str p.secret.toList)]

lemma hexVal_hexDigitChar (d : Nat) (hd : d < 16) : hexVal (hexDigitChar d) = some d := by
  interval_cases d <;> decide

lemma parseJString_bslash (l : List Char) : parseJString ('\\' :: l) = parseJStringEsc l := by
  simp [parseJString]

lemma parseJStringEsc_u (l : List Char) : parseJStringEsc ('u' :: l) = parseJStringU l := by
  simp [parseJStringEsc]

/-- The escapes the encoder emits for control characters decode back. -/
lemma parseJStringU_low (d1 d2 : Nat) (hd1 : d1 < 16) (hd2 : d2 < 16) (l : List Char) :
    parseJStringU ('0' :: '0' :: hexDigitChar d1 :: hexDigitChar d2 :: l) =
      (parseJString l).map (fun sr => (Char.ofNat (d1 * 16 + d2) :: sr.1, sr.2)) := by
  have h0 : hexVal '0' = some 0 := by decide
  have hXX : ((0 * 16 + 0) * 16 + d1) * 16 + d2 = d1 * 16 + d2 := by omega
  simp only [parseJStringU, h0, hexVal_hexDigitChar _ hd1, hexVal_hexDigitChar _ hd2, hXX]
  rw [if_neg (by omega), if_neg (by omega)]

/-- Unquoting inverts the encoder escaping, character by character. -/
lemma parseJString_escString (s : List Char) : ∀ rest : List Char,
    parseJString (escJsonString s ++ '"' :: rest) = .ok (s, rest) := by
  induction s with
  | nil =>
    intro rest
    simp [escJsonString, parseJString]
  | cons c s ih =>
    intro rest
    have hesc : escJsonString (c :: s) = escJsonChar c ++ escJsonString s := rfl
    rw [hesc, List.append_assoc]
    unfold escJsonChar
    by_cases h1 : c = '"'
    · subst h1
      simp [parseJString, parseJStringEsc, unescapeSimple, ih, Except.map]
    · rw [if_neg h1]
      by_cases h2 : c = '\\'
      · subst h2
        simp [parseJString, parseJStringEsc, unescapeSimple, ih, Except.map]
      · rw [if_neg h2]
        by_cases h3 : c = '\n'
        · subst h3
          simp [parseJString, parseJStringEsc, unescapeSimple, ih, Except.map]
        · rw [if_neg h3]
          by_cases h4 : c = '\r'
          · subst h4
            simp [parseJString, parseJStringEsc, unescapeSimple, ih, Except.map]
          · rw [if_neg h4]
            by_cases h5 : c = '\t'
            · subst h5
              simp [parseJString, parseJStringEsc, unescapeSimple, ih, Except.map]
            · rw [if_neg h5]
              by_cases h6 : c.toNat < 0x20
              · rw [if_pos h6]
                simp only [List.cons_append, List.nil_append]
                rw [parseJString_bslash, parseJStringEsc_u,
                  parseJStringU_low _ _ (by omega) (by omega), ih]
                have hc : c.toNat / 16 * 16 + c.toNat % 16 = c.toNat := by omega
                rw [hc, Char.ofNat_toNat]
                rfl
              · rw [if_neg h6]
                by_cases h7 : c = '<'
                · subst h7
                  simp [parseJString, parseJStringEsc, parseJStringU, hexVal, ih, Except.map]
                · rw [if_neg h7]
                  by_cases h8 : c = '>'
                  · subst h8
                    simp [parseJString, parseJStringEsc, parseJStringU, hexVal, ih, Except.map]
                  · rw [if_neg h8]
                    by_cases h9 : c = '&'
                    · subst h9
                      simp [parseJString, parseJStringEsc, parseJStringU, hexVal, ih, Except.map]
                    · rw [if_neg h9]
                      by_cases h10 : c.toNat = 0x2028
                      · rw [if_pos h10]
                        simp only [List.cons_append, List.nil_append]
                        simp [parseJString, parseJStringEsc, parseJStringU, hexVal, ih,
                          Except.map]
                        rw [show (8232 : Nat) = c.toNat from h10.symm, Char.ofNat_toNat]
                      · rw [if_neg h10]
                        by_cases h11 : c.toNat = 0x2029
                        · rw [if_pos h11]
                          simp only [List.cons_append, List.nil_append]
                          simp [parseJString, parseJStringEsc, parseJStringU, hexVal, ih,
                            Except.map]
                          rw [show (8233 : Nat) = c.toNat from h11.symm, Char.ofNat_toNat]
                        · rw [if_neg h11]
                          simp only [List.cons_append]
                          simp [parseJString, h1, h2, h6, ih, Except.map]


lemma skipWs_ws (c : Char) (l : List Char) (h : jsonWs c = true) :
    skipWs (c :: l) = skipWs l := by
  simp [skipWs, List.dropWhile_cons, h]

lemma skipWs_nonws (c : Char) (l : List Char) (h : jsonWs c = false) :
    skipWs (c :: l) = c :: l := by
  simp [skipWs, List.dropWhile_cons, h]

lemma skipWs_sp (l : List Char) : skipWs (' ' :: l) = skipWs l := skipWs_ws _ _ (by decide)

lemma skipWs_nl (l : List Char) : skipWs ('\n' :: l) = skipWs l := skipWs_ws _ _ (by decide)

lemma skipWs_lbrace (l : List Char) : skipWs ('\x7b' :: l) = '\x7b' :: l :=
  skipWs_nonws _ _ (by decide)

lemma skipWs_rbrace (l : List Char) : skipWs ('\x7d' :: l) = '\x7d' :: l :=
  skipWs_nonws _ _ (by decide)

lemma skipWs_lbrack (l : List Char) : skipWs ('[' :: l) = '[' :: l :=
  skipWs_nonws _ _ (by decide)

lemma skipWs_rbrack (l : List Char) : skipWs (']' :: l) = ']' :: l :=
  skipWs_nonws _ _ (by decide)

lemma skipWs_quote (l : List Char) : skipWs ('"' :: l) = '"' :: l :=
  skipWs_nonws _ _ (by decide)

lemma skipWs_colon (l : List Char) : skipWs (':' :: l) = ':' :: l :=
  skipWs_nonws _ _ (by decide)

lemma skipWs_comma (l : List Char) : skipWs (',' :: l) = ',' :: l :=
  skipWs_nonws _ _ (by decide)

lemma parseJValue_strVal (f : Nat) (v tail : List Char) :
    parseJValue (f + 1) (' ' :: '"' :: (escJsonString v ++ '"' :: tail)) =
      .ok (.str v, tail) := by
  simp only [parseJValue]
  rw [skipWs_sp, skipWs_quote]
  simp [parseJString_escString v tail]

lemma keyN (X : List Char) :
    ('N' :: 'a' :: 'm' :: 'e' :: '"' :: X) = escJsonString ['N', 'a', 'm', 'e'] ++ '"' :: X := rfl

lemma keyS (X : List Char) :
    ('S' :: 'e' :: 'c' :: 'r' :: 'e' :: 't' :: '"' :: X) =
      escJsonString ['S', 'e', 'c', 'r', 'e', 't'] ++ '"' :: X := rfl

/-- Parsing one indented array item of the encoder output. -/
lemma parseJValue_item (p : Provider) (f : Nat) (rest : List Char) :
    parseJValue (f + 4) ('\n' :: (marshalProviderItem p ++ rest)) = .ok (provJ p, rest) := by
  unfold marshalProviderItem quoteJson
  simp only [List.cons_append, List.nil_append, List.append_assoc]
  simp only [parseJValue]
  simp only [skipWs_sp, skipWs_nl, skipWs_lbrace, skipWs_rbrace, skipWs_quote,
    skipWs_colon, skipWs_comma, parseMembers, parseJValue, keyN, keyS,
    parseJString_escString, parseJValue_strVal]
  split
  · rename_i r2 heq
    simp at heq
  · simp [provJ]

/-- Parsing the comma-joined items of a non-empty provider array. -/
lemma parseElems_items : ∀ (ps : List Provider) (p : Provider) (f : Nat) (acc : List JValue)
    (rest : List Char),
    parseElems (f + ps.length + 5)
        ('\n' :: (joinItems ((p :: ps).map marshalProviderItem) ++ '\n' :: ']' :: rest)) acc =
      .ok (.arr (acc.reverse ++ (p :: ps).map provJ), rest) := by
  intro ps
  induction ps with
  | nil =>
    intro p f acc rest
    simp only [List.map_cons, List.map_nil, joinItems, List.length_nil, Nat.add_zero]
    rw [parseElems]
    rw [parseJValue_item p f]
    simp only [skipWs_nl, skipWs_rbrack]
    simp [List.reverse_cons]
  | cons q ps ih =>
    intro p f acc rest
    simp only [List.map_cons, joinItems, List.length_cons, List.cons_append,
      List.append_assoc]
    have hfuel : f + (ps.length + 1) + 5 = f + 1 + ps.length + 5 := by omega
    rw [hfuel]
    rw [parseElems]
    rw [parseJValue_item p (f + 1 + ps.length)]
    simp only [skipWs_comma]
    have hfuel2 : f + 1 + ps.length + 4 = f + ps.length + 5 := by omega
    rw [hfuel2]
    have hstep := ih q f (provJ p :: acc) rest
    simp only [List.map_cons] at hstep
    rw [hstep]
    simp

lemma providerOf_provJ (p : Provider) : providerOfJValue (provJ p) = .ok p := rfl

lemma providersOf_map (l : List Provider) :
    providersOfJValue (.arr (l.map provJ)) = .ok l := by
  induction l with
  | nil => rfl
  | cons p l ih =>
    simp only [providersOfJValue, List.map_cons, decodeElems, providerOf_provJ]
    simp only [providersOfJValue] at ih
    simp [ih]

lemma joinItems_length (p : Provider) (ps : List Provider) :
    ps.length + 1 ≤ (joinItems ((p :: ps).map marshalProviderItem)).length := by
  induction ps generalizing p with
  | nil =>
    simp [joinItems, marshalProviderItem]
  | cons q ps ih =>
    have h2 := ih q
    simp only [List.map_cons, joinItems, List.length_cons, List.length_append] at h2 ⊢
    omega

lemma joinItems_cons_head (p : Provider) (ps : List Provider) :
    ∃ tl, joinItems ((p :: ps).map marshalProviderItem) = marshalProviderItem p ++ tl := by
  cases ps with
  | nil => exact ⟨[], (List.append_nil _).symm⟩
  | cons q ps => exact ⟨_, rfl⟩

lemma skipWs_join (p : Provider) (ps : List Provider) (z : List Char) :
    ∃ X, skipWs ('\n' :: (joinItems ((p :: ps).map marshalProviderItem) ++ z)) =
      '\x7b' :: X := by
  obtain ⟨tl, htl⟩ := joinItems_cons_head p ps
  rw [htl, skipWs_nl, List.append_assoc]
  unfold marshalProviderItem
  simp only [List.cons_append, List.append_assoc, skipWs_sp, skipWs_lbrace]
  exact ⟨_, rfl⟩

/-- Parsing the complete encoder output for a non-empty list. -/
lemma parseJValue_consArray (p : Provider) (ps : List Provider) (f : Nat) (rest : List Char) :
    parseJValue ((f + ps.length + 5) + 1)
        ('[' :: '\n' :: (joinItems ((p :: ps).map marshalProviderItem) ++ '\n' :: ']' :: rest)) =
      .ok (.arr ((p :: ps).map provJ), rest) := by
  simp only [parseJValue, skipWs_lbrack]
  obtain ⟨X, hX⟩ := skipWs_join p ps ('\n' :: ']' :: rest)
  split
  · rename_i r2 heq
    rw [hX] at heq
    simp at heq
  · rw [parseElems_items ps p f [] rest]
    simp

/-- C6: saving any provider list and loading the saved content yields
the identical list — same length, same order, same names and
secrets. -/
theorem saveLoadRoundTrip (ps : List Provider) :
    loadProviders (saveProviders ps) = .ok ps := by
  cases ps with
  | nil => rfl
  | cons p ps =>
    have htl : (saveProviders (p :: ps)).toList =
        '[' :: '\n' :: (joinItems ((p :: ps).map marshalProviderItem) ++ ['\n', ']']) := rfl
    unfold loadProviders
    rw [htl]
    obtain ⟨k, hk⟩ : ∃ k,
        (joinItems ((p :: ps).map marshalProviderItem)).length = ps.length + 1 + k :=
      ⟨(joinItems ((p :: ps).map marshalProviderItem)).length - (ps.length + 1), by
        have := joinItems_length p ps
        omega⟩
    have hL : ('[' :: '\n' ::
          (joinItems ((p :: ps).map marshalProviderItem) ++ ['\n', ']'])).length + 1 =
        ((k + ps.length + 5) + 1) := by
      simp only [List.length_cons, List.length_nil, List.length_append, hk]
      omega
    rw [hL]
    rw [parseJValue_consArray p ps k []]
    simp only []
    rw [show skipWs ([] : List Char) = [] from rfl, if_pos rfl, providersOf_map]

end OtpAuth
